import Mathlib

/-!
# merklediff — verification of the hashing/tree core

Shallow embedding of the merklediff Go repository's core:
the canonical serializer (`internal/tree/serializer.go`), the Merkle tree
builder (`pkg/tree/merkle_tree.go`, `pkg/tree/node.go`), and the diff engine
(`pkg/tree/diff.go`).  Bytes are modelled as `List Nat`
(each entry a byte value), Go `nil` pointers as `Option`, and the SHA-256
digest (`pkg/hasher/hasher.go`, backed by Go's `crypto/sha256`) is
implemented executably below and validated against the standard FIPS 180-4
test vectors.
-/

namespace Merklediff

/-- Byte strings (Go `[]byte`): lists of byte values. -/
abbrev Bytes := List Nat

/-! ## SHA-256 (`crypto/sha256`, as used by `hasher.SHA256Hasher.Hash`) -/

/-- Truncation to a 32-bit word. -/
def u32 (x : Nat) : Nat := x % 4294967296

/-- Right rotation of a 32-bit word by `n` bits. -/
def rotr32 (n x : Nat) : Nat := (x >>> n) + ((x % 2 ^ n) <<< (32 - n))

/-- SHA-256 `Ch` function. -/
def shaCh (e f g : Nat) : Nat :=
  Nat.xor (Nat.land e f) (Nat.land (Nat.xor e 4294967295) g)

/-- SHA-256 `Maj` function. -/
def shaMaj (a b c : Nat) : Nat :=
  Nat.xor (Nat.xor (Nat.land a b) (Nat.land a c)) (Nat.land b c)

/-- SHA-256 `Σ₀`. -/
def bigSigma0 (x : Nat) : Nat :=
  Nat.xor (Nat.xor (rotr32 2 x) (rotr32 13 x)) (rotr32 22 x)

/-- SHA-256 `Σ₁`. -/
def bigSigma1 (x : Nat) : Nat :=
  Nat.xor (Nat.xor (rotr32 6 x) (rotr32 11 x)) (rotr32 25 x)

/-- SHA-256 `σ₀`. -/
def smallSigma0 (x : Nat) : Nat :=
  Nat.xor (Nat.xor (rotr32 7 x) (rotr32 18 x)) (x >>> 3)

/-- SHA-256 `σ₁`. -/
def smallSigma1 (x : Nat) : Nat :=
  Nat.xor (Nat.xor (rotr32 17 x) (rotr32 19 x)) (x >>> 10)

/-- The 64 SHA-256 round constants. -/
def K256 : List Nat :=
  [1116352408, 1899447441, 3049323471, 3921009573, 961987163,
   1508970993, 2453635748, 2870763221, 3624381080, 310598401,
   607225278, 1426881987, 1925078388, 2162078206, 2614888103,
   3248222580, 3835390401, 4022224774, 264347078, 604807628,
   770255983, 1249150122, 1555081692, 1996064986, 2554220882,
   2821834349, 2952996808, 3210313671, 3336571891, 3584528711,
   113926993, 338241895, 666307205, 773529912, 1294757372,
   1396182291, 1695183700, 1986661051, 2177026350, 2456956037,
   2730485921, 2820302411, 3259730800, 3345764771, 3516065817,
   3600352804, 4094571909, 275423344, 430227734, 506948616,
   659060556, 883997877, 958139571, 1322822218, 1537002063,
   1747873779, 1955562222, 2024104815, 2227730452, 2361852424,
   2428436474, 2756734187, 3204031479, 3329325298]

/-- The SHA-256 initial hash state. -/
def H256init : List Nat :=
  [1779033703, 3144134277, 1013904242, 2773480762,
   1359893119, 2600822924, 528734635, 1541459225]

/-- Word lookup with default 0 (all accesses below are in range). -/
def wAt (w : List Nat) (i : Nat) : Nat := w.getD i 0

/-- One step of the message-schedule extension. -/
def extendStep (w : List Nat) : List Nat :=
  let t := w.length
  w ++ [u32 (smallSigma1 (wAt w (t - 2)) + wAt w (t - 7) +
             smallSigma0 (wAt w (t - 15)) + wAt w (t - 16))]

/-- The full 64-word message schedule from the 16 block words. -/
def schedule (w16 : List Nat) : List Nat := Nat.repeat extendStep 48 w16

/-- Big-endian 32-bit words from bytes. -/
def bytesToWords : List Nat → List Nat
  | b0 :: b1 :: b2 :: b3 :: rest =>
      (b0 * 16777216 + b1 * 65536 + b2 * 256 + b3) :: bytesToWords rest
  | _ => []

/-- Big-endian bytes of a 32-bit word. -/
def wordBytes (w : Nat) : Bytes :=
  [w / 16777216 % 256, w / 65536 % 256, w / 256 % 256, w % 256]

/-- Big-endian 8-byte encoding of a 64-bit quantity. -/
def u64be (n : Nat) : Bytes :=
  [n / 2 ^ 56 % 256, n / 2 ^ 48 % 256, n / 2 ^ 40 % 256, n / 2 ^ 32 % 256,
   n / 2 ^ 24 % 256, n / 2 ^ 16 % 256, n / 2 ^ 8 % 256, n % 256]

/-- The SHA-256 working state (a,b,c,d,e,f,g,h). -/
structure ShaState where
  a : Nat
  b : Nat
  c : Nat
  d : Nat
  e : Nat
  f : Nat
  g : Nat
  h : Nat

/-- One SHA-256 compression round. -/
def shaRound (st : ShaState) (kw : Nat × Nat) : ShaState :=
  let t1 := u32 (st.h + bigSigma1 st.e + shaCh st.e st.f st.g + kw.1 + kw.2)
  let t2 := u32 (bigSigma0 st.a + shaMaj st.a st.b st.c)
  ⟨u32 (t1 + t2), st.a, st.b, st.c, u32 (st.d + t1), st.e, st.f, st.g⟩

/-- Compress one 64-byte block into the hash state. -/
def compress (hs : List Nat) (block : List Nat) : List Nat :=
  let w := schedule (bytesToWords block)
  let st0 : ShaState :=
    ⟨wAt hs 0, wAt hs 1, wAt hs 2, wAt hs 3, wAt hs 4, wAt hs 5, wAt hs 6, wAt hs 7⟩
  let st := (K256.zip w).foldl shaRound st0
  [u32 (wAt hs 0 + st.a), u32 (wAt hs 1 + st.b), u32 (wAt hs 2 + st.c),
   u32 (wAt hs 3 + st.d), u32 (wAt hs 4 + st.e), u32 (wAt hs 5 + st.f),
   u32 (wAt hs 6 + st.g), u32 (wAt hs 7 + st.h)]

/-- Split a byte list into 64-byte blocks; the fuel argument (instantiated with
the list length, an upper bound on the number of blocks) makes the recursion
structural so that the kernel can evaluate it. -/
def toBlocksF : Nat → List Nat → List (List Nat)
  | _, [] => []
  | 0, _ => []
  | fuel + 1, x :: rest => ((x :: rest).take 64) :: toBlocksF fuel ((x :: rest).drop 64)

/-- Split a byte list into 64-byte blocks. -/
def toBlocks (l : List Nat) : List (List Nat) := toBlocksF l.length l

/-- SHA-256 of a byte string: Merkle–Damgård padding then block compression,
producing the 32-byte digest. -/
def sha256 (msg : Bytes) : Bytes :=
  let padded := msg ++ [128] ++
    List.replicate ((64 - (msg.length + 9) % 64) % 64) 0 ++ u64be (8 * msg.length)
  let final := (toBlocks padded).foldl compress H256init
  (final.map wordBytes).flatten

/-! ## Canonical serializer (`internal/tree/serializer.go`) -/

/-- Big-endian 4-byte encoding of a 32-bit quantity
(`binary.BigEndian.PutUint32`). -/
def u32be (n : Nat) : Bytes :=
  [n / 2 ^ 24 % 256, n / 2 ^ 16 % 256, n / 2 ^ 8 % 256, n % 256]

/-- A Go `any` value as dispatched by `Serializer.serializeValue`'s type
switch.  Go strings are byte strings, so `str` carries the string's bytes;
`float` carries the IEEE-754 double bit pattern that `math.Float64bits`
yields (Lean has no float semantics; the payload written is exactly those
8 bytes); `time` carries the `UnixNano` value; `other` is the fallback arm,
carrying the bytes of the value's default `fmt.Sprintf` rendering. -/
inductive GoValue where
  | null
  | str (s : Bytes)
  | int (i : Int)
  | int64 (i : Int)
  | int32 (i : Int)
  | float (bits : Nat)
  | bool (b : Bool)
  | bytes (b : Bytes)
  | time (unixNano : Int)
  | other (rendering : Bytes)
deriving DecidableEq

/-- The `Serializer` with its internal `bytes.Buffer`. -/
structure Serializer where
  buf : Bytes
deriving DecidableEq

/-- `NewSerializer`: fresh serializer with an empty buffer. -/
def NewSerializer : Serializer := ⟨[]⟩

/-- `writeType`: append the one-byte type tag. -/
def Serializer.writeType (s : Serializer) (t : Nat) : Serializer :=
  ⟨s.buf ++ [t]⟩

/-- `buf.WriteByte`: append one byte. -/
def Serializer.writeByte (s : Serializer) (b : Nat) : Serializer :=
  ⟨s.buf ++ [b]⟩

/-- `writeBytes`: append a 4-byte big-endian length prefix, then the bytes. -/
def Serializer.writeBytes (s : Serializer) (b : Bytes) : Serializer :=
  ⟨s.buf ++ u32be b.length ++ b⟩

/-- `writeInt64`: append the 8-byte big-endian two's-complement encoding
(`PutUint64(uint64(i))`). -/
def Serializer.writeInt64 (s : Serializer) (i : Int) : Serializer :=
  ⟨s.buf ++ u64be (i % 2 ^ 64).toNat⟩

/-- `writeFloat64`: append the 8 big-endian bytes of the double bit pattern. -/
def Serializer.writeFloat64 (s : Serializer) (bits : Nat) : Serializer :=
  ⟨s.buf ++ u64be bits⟩

/-- `serializeValue`: one value, type tag then payload, appended to the
buffer.  The Go `int`/`int64`/`int32` arms all widen to `int64` and share
tag 2; `float64`/`float32` share tag 3 (`float` holds the double's bits,
matching the `float64(val)` widening). -/
def Serializer.serializeValue (s : Serializer) (v : GoValue) : Serializer :=
  match v with
  | .null => s.writeType 0
  | .str val => (s.writeType 1).writeBytes val
  | .int val => (s.writeType 2).writeInt64 val
  | .int64 val => (s.writeType 2).writeInt64 val
  | .int32 val => (s.writeType 2).writeInt64 val
  | .float bits => (s.writeType 3).writeFloat64 bits
  | .bool val => (s.writeType 4).writeByte (if val then 1 else 0)
  | .bytes val => (s.writeType 5).writeBytes val
  | .time ns => (s.writeType 6).writeInt64 ns
  | .other rendering => (s.writeType 1).writeBytes rendering

/-- `SerializeRow`: reset the buffer, serialize each value in order, and
return (the serializer in its post-call state, a copy of the buffer). -/
def Serializer.SerializeRow (s : Serializer) (values : List GoValue) :
    Serializer × Bytes :=
  let s0 : Serializer := ⟨[]⟩
  let s1 := values.foldl Serializer.serializeValue s0
  (s1, s1.buf)

/-- `NodeBuilder.SerializeRowValues`.  The Go `NodeBuilder` reuses one
`Serializer` across calls; `SerializeRow` resets the buffer first, so the
output never depends on the carried state (proved in the determinism
theorem below), and the embedding may serialize each row with a fresh
serializer. -/
def SerializeRowValues (values : List GoValue) : Bytes :=
  (NewSerializer.SerializeRow values).2

/-! ## Tree nodes (`pkg/tree/node.go`) -/

/-- `MerkleNode`: hash, inclusive key range, two child pointers, level.
The Go struct holds two independently nilable `*MerkleNode` fields; the
four constructors enumerate the four nil-patterns (`mk0` both nil, `mkL`
only left set, `mkR` only right set, `mk2` both set), so the type is
exactly the Go struct under the exclusive-ownership reading (no sharing,
no cycles) that the tree code maintains. -/
inductive MerkleNode where
  | mk0 (hash startKey endKey : Bytes) (level : Nat)
  | mkL (hash startKey endKey : Bytes) (left : MerkleNode) (level : Nat)
  | mkR (hash startKey endKey : Bytes) (right : MerkleNode) (level : Nat)
  | mk2 (hash startKey endKey : Bytes) (left right : MerkleNode) (level : Nat)
deriving DecidableEq

def MerkleNode.GetHash : MerkleNode → Bytes
  | .mk0 h _ _ _ => h
  | .mkL h _ _ _ _ => h
  | .mkR h _ _ _ _ => h
  | .mk2 h _ _ _ _ _ => h

def MerkleNode.GetStartKey : MerkleNode → Bytes
  | .mk0 _ s _ _ => s
  | .mkL _ s _ _ _ => s
  | .mkR _ s _ _ _ => s
  | .mk2 _ s _ _ _ _ => s

def MerkleNode.GetEndKey : MerkleNode → Bytes
  | .mk0 _ _ e _ => e
  | .mkL _ _ e _ _ => e
  | .mkR _ _ e _ _ => e
  | .mk2 _ _ e _ _ _ => e

def MerkleNode.GetLeft : MerkleNode → Option MerkleNode
  | .mk0 _ _ _ _ => none
  | .mkL _ _ _ l _ => some l
  | .mkR _ _ _ _ _ => none
  | .mk2 _ _ _ l _ _ => some l

def MerkleNode.GetRight : MerkleNode → Option MerkleNode
  | .mk0 _ _ _ _ => none
  | .mkL _ _ _ _ _ => none
  | .mkR _ _ _ r _ => some r
  | .mk2 _ _ _ _ r _ => some r

def MerkleNode.GetLevel : MerkleNode → Nat
  | .mk0 _ _ _ lv => lv
  | .mkL _ _ _ _ lv => lv
  | .mkR _ _ _ _ lv => lv
  | .mk2 _ _ _ _ _ lv => lv

def MerkleNode.SetLeft : MerkleNode → MerkleNode → MerkleNode
  | .mk0 h s e lv, l => .mkL h s e l lv
  | .mkL h s e _ lv, l => .mkL h s e l lv
  | .mkR h s e r lv, l => .mk2 h s e l r lv
  | .mk2 h s e _ r lv, l => .mk2 h s e l r lv

def MerkleNode.SetRight : MerkleNode → MerkleNode → MerkleNode
  | .mk0 h s e lv, r => .mkR h s e r lv
  | .mkL h s e l lv, r => .mk2 h s e l r lv
  | .mkR h s e _ lv, r => .mkR h s e r lv
  | .mk2 h s e l _ lv, r => .mk2 h s e l r lv

def MerkleNode.SetLevel : MerkleNode → Nat → MerkleNode
  | .mk0 h s e _, lv => .mk0 h s e lv
  | .mkL h s e l _, lv => .mkL h s e l lv
  | .mkR h s e r _, lv => .mkR h s e r lv
  | .mk2 h s e l r _, lv => .mk2 h s e l r lv

/-- `GetChunkSize`: the byte length of the node's start key. -/
def MerkleNode.GetChunkSize (n : MerkleNode) : Nat :=
  n.GetStartKey.length

/-- `IsLeaf`: both child pointers nil. -/
def MerkleNode.IsLeaf (n : MerkleNode) : Bool :=
  n.GetLeft.isNone && n.GetRight.isNone

/-- `NewNode`: hash the payload with SHA-256 and create a childless node at
level 0. -/
def NewNode (hash startKey endKey : Bytes) : MerkleNode :=
  .mk0 (sha256 hash) startKey endKey 0

/-! ## Tree builder (`pkg/tree/merkle_tree.go`) -/

/-- A typed row (`pkg/types/types.go`): key bytes plus typed values. -/
structure Row where
  Key : Bytes
  Values : List GoValue
deriving DecidableEq

/-- The parent construction inside `buildTreeLevels`: hash the concatenated
child hashes, keys spanning left start to right end, then attach the
children and set the level to one more than the deepest child. -/
def mkParentNode (left right : MerkleNode) : MerkleNode :=
  let combined := left.GetHash ++ right.GetHash
  let parent := NewNode combined left.GetStartKey right.GetEndKey
  let parent := parent.SetLeft left
  let parent := parent.SetRight right
  parent.SetLevel (max left.GetLevel right.GetLevel + 1)

/-- One reduction level: the `for i := 0; i < len(nodes); i += 2` scan —
full pairs become parents, a lone last node is carried up unchanged. -/
def combineLevel : List MerkleNode → List MerkleNode
  | l :: r :: rest => mkParentNode l r :: combineLevel rest
  | [n] => [n]
  | [] => []

/-- `buildTreeLevels`'s `for len(nodes) > 1` loop, with a fuel argument
(instantiated with the node count, an upper bound on the number of levels
since each level at least halves a list of two or more nodes) so that the
recursion is structural and kernel-evaluable. -/
def buildTreeLevelsF : Nat → List MerkleNode → Option MerkleNode
  | _, [] => none
  | _, [n] => some n
  | 0, _ :: _ :: _ => none
  | fuel + 1, l => buildTreeLevelsF fuel (combineLevel l)

/-- `buildTreeLevels`: reduce level by level until one node remains.  The
Go code indexes `nodes[0]` unconditionally and its callers guard against
the empty list; the embedding returns `none` there. -/
def buildTreeLevels (nodes : List MerkleNode) : Option MerkleNode :=
  buildTreeLevelsF nodes.length nodes

/-- A level-0 leaf for one row: serialized values hashed, key range
`[row.Key, row.Key]`. -/
def rowLeaf (row : Row) : MerkleNode :=
  (NewNode (SerializeRowValues row.Values) row.Key row.Key).SetLevel 0

/-- `buildTreeFromRows`. -/
def buildTreeFromRows (rows : List Row) : Option MerkleNode :=
  if rows.length = 0 then none
  else buildTreeLevels (rows.map rowLeaf)

/-- Decimal ASCII digits of a number (`%d`), big-endian; fuel-structured
(fuel `n` suffices since the argument at least halves each step). -/
def decimalBytesF : Nat → Nat → Bytes
  | 0, n => [48 + n % 10]
  | fuel + 1, n =>
      if n < 10 then [48 + n]
      else decimalBytesF fuel (n / 10) ++ [48 + n % 10]

/-- Decimal ASCII digits of a number. -/
def decimalBytes (n : Nat) : Bytes := decimalBytesF n n

/-- The synthesized chunk key `fmt.Sprintf("chunk-%d", i)`. -/
def chunkKey (i : Nat) : Bytes :=
  [99, 104, 117, 110, 107, 45] ++ decimalBytes i

/-- A level-0 leaf for one raw chunk. -/
def chunkLeaf (i : Nat) (chunk : Bytes) : MerkleNode :=
  (NewNode chunk (chunkKey i) (chunkKey i)).SetLevel 0

/-- `buildTreeFromChunks`: auto-keyed leaves, then the level reduction. -/
def buildTreeFromChunks (chunks : List Bytes) : Option MerkleNode :=
  if chunks.length = 0 then none
  else buildTreeLevels (chunks.enum.map fun p => chunkLeaf p.1 p.2)

/-- `MerkleTree`: owns the root pointer, which is nil for empty input.
(The Go struct also carries a `nodeBuilder`; it holds only the reusable
serializer, whose state is unobservable — see the determinism theorem —
so it is omitted here.) -/
structure MerkleTree where
  root : Option MerkleNode
deriving DecidableEq

/-- `NewMerkleTreeFromRows`. -/
def NewMerkleTreeFromRows (rows : List Row) : MerkleTree :=
  ⟨buildTreeFromRows rows⟩

/-- `NewMerkleTreeFromChunks`. -/
def NewMerkleTreeFromChunks (chunks : List Bytes) : MerkleTree :=
  ⟨buildTreeFromChunks chunks⟩

def MerkleTree.GetRoot (t : MerkleTree) : Option MerkleNode := t.root

/-- `MerkleTree.GetChunkSize`: 0 when the root is nil, else the root's
start-key length. -/
def MerkleTree.GetChunkSize (t : MerkleTree) : Nat :=
  match t.root with
  | none => 0
  | some r => r.GetChunkSize

/-- Model of a `types.RowReader` (`pkg/types/types.go`): the rows the
iterator yields across successive `Next`/`Row` calls, and the value its
`Err()` reports once iteration has stopped.  Concrete readers (CSV,
Postgres) are outside the verified core. -/
structure ReaderModel where
  rows : List Row
  err : Option String

/-- `BuildTreeFromReader`: collect a leaf per yielded row, then return the
reader's error with a nil tree, or the built tree (nil root when no rows
arrived).  The Go signature `(*MerkleTree, error)` is modelled as a pair
of options. -/
def BuildTreeFromReader (r : ReaderModel) :
    Option MerkleTree × Option String :=
  let nodes := r.rows.map rowLeaf
  match r.err with
  | some e => (none, some e)
  | none =>
      if nodes.length = 0 then (some ⟨none⟩, none)
      else (some ⟨buildTreeLevels nodes⟩, none)

/-! ## Diff engine (`pkg/tree/diff.go`) -/

inductive DiffType where
  | added
  | removed
  | changed
deriving DecidableEq

/-- A reported range.  The Go field `Type` is a reserved word in Lean and
is rendered `Kind`. -/
structure KeyRange where
  Start : Bytes
  End : Bytes
  Kind : DiffType
deriving DecidableEq

/-- `bytes.Compare`: lexicographic byte order, a proper prefix sorting
first. -/
def bytesCompare : Bytes → Bytes → Ordering
  | [], [] => .eq
  | [], _ :: _ => .lt
  | _ :: _, [] => .gt
  | a :: as, b :: bs =>
      if a < b then .lt else if b < a then .gt else bytesCompare as bs

/-- `minKey`: `a` when `bytes.Compare(a, b) < 0`, else `b`. -/
def minKey (a b : Bytes) : Bytes :=
  if bytesCompare a b = .lt then a else b

/-- `maxKey`: `a` when `bytes.Compare(a, b) > 0`, else `b`. -/
def maxKey (a b : Bytes) : Bytes :=
  if bytesCompare a b = .gt then a else b

/-- Node height, used only to bound the diff recursion's fuel. -/
def MerkleNode.height : MerkleNode → Nat
  | .mk0 _ _ _ _ => 0
  | .mkL _ _ _ l _ => l.height + 1
  | .mkR _ _ _ r _ => r.height + 1
  | .mk2 _ _ _ l r _ => max l.height r.height + 1

/-- Height of an optional node. -/
def optHeight : Option MerkleNode → Nat
  | none => 0
  | some n => n.height + 1

/-- `compareTreesRecursive`, with a fuel argument making the recursion
structural (each recursive step moves to children, so any fuel at least
the summed heights is enough; `compareTreesRecursive` below instantiates
it that way, and `compareTreesRecursiveF_fuel` proves the result does not
depend on the choice).  The branch order is the source's: both nil; only
in B (added); only in A (removed); equal hashes; both leaves (changed);
leaf/internal mismatch (changed, union range); recurse on both child
pairs. -/
def compareTreesRecursiveF :
    Nat → Option MerkleNode → Option MerkleNode → List KeyRange
  | _, none, none => []
  | _, none, some b => [⟨b.GetStartKey, b.GetEndKey, .added⟩]
  | _, some a, none => [⟨a.GetStartKey, a.GetEndKey, .removed⟩]
  | 0, some _, some _ => []
  | fuel + 1, some a, some b =>
      if a.GetHash = b.GetHash then []
      else if a.IsLeaf && b.IsLeaf then
        [⟨a.GetStartKey, a.GetEndKey, .changed⟩]
      else if a.IsLeaf != b.IsLeaf then
        [⟨minKey a.GetStartKey b.GetStartKey,
          maxKey a.GetEndKey b.GetEndKey, .changed⟩]
      else
        compareTreesRecursiveF fuel a.GetLeft b.GetLeft ++
          compareTreesRecursiveF fuel a.GetRight b.GetRight

/-- `compareTreesRecursive`. -/
def compareTreesRecursive (a b : Option MerkleNode) : List KeyRange :=
  compareTreesRecursiveF (optHeight a + optHeight b) a b

/-- The `Diff` struct: the two trees and the populated ranges (initially
the nil slice). -/
structure Diff where
  treeA : MerkleTree
  treeB : MerkleTree
  ranges : List KeyRange

/-- `NewDiff`. -/
def NewDiff (treeA treeB : MerkleTree) : Diff := ⟨treeA, treeB, []⟩

/-- `Diff.Compare`: the chunk-size precondition check panics on mismatch —
modelled as returning the panic message with the receiver unchanged —
otherwise the recursive walk's ranges are stored. -/
def Diff.Compare (d : Diff) : Diff × Option String :=
  if d.treeA.GetChunkSize ≠ d.treeB.GetChunkSize then
    (d, some ("chunk size mismatch: " ++ toString d.treeA.GetChunkSize ++
        " vs " ++ toString d.treeB.GetChunkSize))
  else
    ({ d with ranges := compareTreesRecursive d.treeA.GetRoot d.treeB.GetRoot },
     none)

/-- `Diff.GetRanges`. -/
def Diff.GetRanges (d : Diff) : List KeyRange := d.ranges

/-- The node invariants of spec §3: a childless node is a leaf with level 0
and a one-point key range; a two-child node carries the hash of its
children's concatenated hashes, spans left start to right end, and sits
one level above its deepest child; one-child nodes never occur. -/
def treeInv : MerkleNode → Bool
  | .mk0 _ s e lv => lv == 0 && s == e
  | .mkL _ _ _ _ _ => false
  | .mkR _ _ _ _ _ => false
  | .mk2 h s e l r lv =>
      h == sha256 (l.GetHash ++ r.GetHash) && s == l.GetStartKey &&
        e == r.GetEndKey && lv == max l.GetLevel r.GetLevel + 1 &&
        treeInv l && treeInv r

/-! ## Validation of the SHA-256 embedding -/

/-- FIPS 180-4 test vector: SHA-256 of `"abc"`. -/
theorem sha256_abc :
    sha256 [97, 98, 99] =
      [186, 120, 22, 191, 143, 1, 207, 234, 65, 65,
       64, 222, 93, 174, 34, 35, 176, 3, 97, 163,
       150, 23, 122, 156, 180, 16, 255, 97, 242, 0,
       21, 173] := by decide

/-- FIPS 180-4 test vector: SHA-256 of the empty string. -/
theorem sha256_empty :
    sha256 [] =
      [227, 176, 196, 66, 152, 252, 28, 20, 154, 251,
       244, 200, 153, 111, 185, 36, 39, 174, 65, 228,
       100, 155, 147, 76, 164, 149, 153, 27, 120, 82,
       184, 85] := by decide

/-! ## Helper lemmas -/

/-- The diff walk of any optional node against itself reports nothing,
whatever the fuel: either both sides are nil, or the hashes agree. -/
theorem compareTreesRecursiveF_self (fuel : Nat) (a : Option MerkleNode) :
    compareTreesRecursiveF fuel a a = [] := by
  cases a with
  | none => cases fuel <;> rfl
  | some n =>
      cases fuel with
      | zero => rfl
      | succ f => simp [compareTreesRecursiveF]

/-- The diff walk of a tree against itself reports nothing. -/
theorem compareTreesRecursive_self (a : Option MerkleNode) :
    compareTreesRecursive a a = [] :=
  compareTreesRecursiveF_self _ _

/-- A left child is strictly lower than its parent. -/
theorem optHeight_GetLeft_le (a : MerkleNode) :
    optHeight a.GetLeft ≤ a.height := by
  cases a with
  | mk0 h s e lv => simp [MerkleNode.GetLeft, optHeight, MerkleNode.height]
  | mkL h s e l lv => simp [MerkleNode.GetLeft, optHeight, MerkleNode.height]
  | mkR h s e r lv => simp [MerkleNode.GetLeft, optHeight, MerkleNode.height]
  | mk2 h s e l r lv =>
      simpa [MerkleNode.GetLeft, optHeight, MerkleNode.height] using
        Nat.le_max_left l.height r.height

/-- A right child is strictly lower than its parent. -/
theorem optHeight_GetRight_le (a : MerkleNode) :
    optHeight a.GetRight ≤ a.height := by
  cases a with
  | mk0 h s e lv => simp [MerkleNode.GetRight, optHeight, MerkleNode.height]
  | mkL h s e l lv => simp [MerkleNode.GetRight, optHeight, MerkleNode.height]
  | mkR h s e r lv => simp [MerkleNode.GetRight, optHeight, MerkleNode.height]
  | mk2 h s e l r lv =>
      simpa [MerkleNode.GetRight, optHeight, MerkleNode.height] using
        Nat.le_max_right l.height r.height

/-- The fuelled diff walk is fuel-independent once the fuel covers the
summed heights: the fuel device loses nothing against the source's
unbounded recursion, which descends one level per step. -/
theorem compareTreesRecursiveF_fuel (f : Nat) :
    ∀ (g : Nat) (a b : Option MerkleNode),
      optHeight a + optHeight b ≤ f → optHeight a + optHeight b ≤ g →
      compareTreesRecursiveF f a b = compareTreesRecursiveF g a b := by
  induction f using Nat.strong_induction_on with
  | _ f ih =>
    intro g a b hf hg
    match a, b with
    | none, none => cases f <;> cases g <;> rfl
    | none, some bb => cases f <;> cases g <;> rfl
    | some aa, none => cases f <;> cases g <;> rfl
    | some aa, some bb =>
      have hf2 : 2 ≤ f := le_trans (by simp [optHeight]; omega) hf
      have hg2 : 2 ≤ g := le_trans (by simp [optHeight]; omega) hg
      obtain ⟨f', rfl⟩ : ∃ f', f = f' + 1 := ⟨f - 1, by omega⟩
      obtain ⟨g', rfl⟩ : ∃ g', g = g' + 1 := ⟨g - 1, by omega⟩
      show compareTreesRecursiveF (f' + 1) (some aa) (some bb) =
        compareTreesRecursiveF (g' + 1) (some aa) (some bb)
      simp only [compareTreesRecursiveF]
      by_cases h1 : aa.GetHash = bb.GetHash
      · simp [h1]
      · simp only [h1, if_false]
        by_cases h2 : (aa.IsLeaf && bb.IsLeaf) = true
        · simp [h2]
        · simp only [h2, if_false]
          by_cases h3 : (aa.IsLeaf != bb.IsLeaf) = true
          · simp [h3]
          · simp only [h3, if_false]
            have hL : optHeight aa.GetLeft + optHeight bb.GetLeft ≤ f' := by
              have := optHeight_GetLeft_le aa
              have := optHeight_GetLeft_le bb
              simp [optHeight] at hf
              omega
            have hR : optHeight aa.GetRight + optHeight bb.GetRight ≤ f' := by
              have := optHeight_GetRight_le aa
              have := optHeight_GetRight_le bb
              simp [optHeight] at hf
              omega
            have hL' : optHeight aa.GetLeft + optHeight bb.GetLeft ≤ g' := by
              have := optHeight_GetLeft_le aa
              have := optHeight_GetLeft_le bb
              simp [optHeight] at hg
              omega
            have hR' : optHeight aa.GetRight + optHeight bb.GetRight ≤ g' := by
              have := optHeight_GetRight_le aa
              have := optHeight_GetRight_le bb
              simp [optHeight] at hg
              omega
            rw [ih f' (by omega) g' _ _ hL hL', ih f' (by omega) g' _ _ hR hR']

/-- The parent produced inside `buildTreeLevels` preserves the node
invariants. -/
theorem treeInv_mkParentNode {l r : MerkleNode}
    (hl : treeInv l = true) (hr : treeInv r = true) :
    treeInv (mkParentNode l r) = true := by
  show treeInv (.mk2 (sha256 (l.GetHash ++ r.GetHash)) l.GetStartKey
    r.GetEndKey l r (max l.GetLevel r.GetLevel + 1)) = true
  simp [treeInv, hl, hr]

/-- One reduction level preserves the node invariants pointwise. -/
theorem treeInv_combineLevel :
    ∀ (nodes : List MerkleNode), (∀ n ∈ nodes, treeInv n = true) →
      ∀ m ∈ combineLevel nodes, treeInv m = true
  | [], _, m, hm => by simp [combineLevel] at hm
  | [n], h, m, hm => by
      simp [combineLevel] at hm
      exact hm ▸ h n (by simp)
  | l :: r :: rest, h, m, hm => by
      simp only [combineLevel, List.mem_cons] at hm
      rcases hm with rfl | hm
      · exact treeInv_mkParentNode (h l (by simp)) (h r (by simp))
      · exact treeInv_combineLevel rest
          (fun n hn => h n (by simp [hn])) m hm

/-- Any root the level reduction returns satisfies the node invariants,
provided the input nodes do. -/
theorem treeInv_buildTreeLevelsF :
    ∀ (fuel : Nat) (nodes : List MerkleNode),
      (∀ n ∈ nodes, treeInv n = true) →
      ∀ root, buildTreeLevelsF fuel nodes = some root → treeInv root = true
  | _, [], _, root, h => by simp [buildTreeLevelsF] at h
  | fuel, [n], hinv, root, h => by
      cases fuel with
      | zero =>
          simp only [buildTreeLevelsF, Option.some.injEq] at h
          exact h ▸ hinv n (by simp)
      | succ f =>
          simp only [buildTreeLevelsF, Option.some.injEq] at h
          exact h ▸ hinv n (by simp)
  | 0, a :: b :: rest, _, root, h => by simp [buildTreeLevelsF] at h
  | fuel + 1, a :: b :: rest, hinv, root, h =>
      treeInv_buildTreeLevelsF fuel (combineLevel (a :: b :: rest))
        (treeInv_combineLevel _ hinv) root h

/-- Row leaves satisfy the node invariants. -/
theorem treeInv_rowLeaf (row : Row) : treeInv (rowLeaf row) = true := by
  simp [rowLeaf, NewNode, MerkleNode.SetLevel, treeInv]

/-- Chunk leaves satisfy the node invariants. -/
theorem treeInv_chunkLeaf (i : Nat) (c : Bytes) :
    treeInv (chunkLeaf i c) = true := by
  simp [chunkLeaf, NewNode, MerkleNode.SetLevel, treeInv]

/-- The absent-vs-present step of the diff walk: one `added` range spanning
the present subtree, whatever the fuel. -/
theorem compareTreesRecursiveF_none_some (fuel : Nat) (b : MerkleNode) :
    compareTreesRecursiveF fuel none (some b) =
      [⟨b.GetStartKey, b.GetEndKey, .added⟩] := by
  cases fuel <;> rfl

/-- The absent-vs-present case of the diff walk yields one `added` range. -/
theorem compareTreesRecursive_none_some (b : MerkleNode) :
    compareTreesRecursive none (some b) =
      [⟨b.GetStartKey, b.GetEndKey, .added⟩] :=
  compareTreesRecursiveF_none_some _ _

/-- Successor-fuel unfolding of the diff walk on two present nodes. -/
theorem compareTreesRecursiveF_succ (fuel : Nat) (a b : MerkleNode) :
    compareTreesRecursiveF (fuel + 1) (some a) (some b) =
      (if a.GetHash = b.GetHash then []
       else if a.IsLeaf && b.IsLeaf then
         [⟨a.GetStartKey, a.GetEndKey, .changed⟩]
       else if a.IsLeaf != b.IsLeaf then
         [⟨minKey a.GetStartKey b.GetStartKey,
           maxKey a.GetEndKey b.GetEndKey, .changed⟩]
       else
         compareTreesRecursiveF fuel a.GetLeft b.GetLeft ++
           compareTreesRecursiveF fuel a.GetRight b.GetRight) := rfl

/-! ## The claims -/

/-- C1 (corrected): the spec's Addition property fails on the code.
`Diff.Compare` first compares `GetChunkSize` — 0 for an absent root, the
root's start-key length otherwise — so comparing an empty tree against a
non-empty tree whose root key is non-empty panics with the chunk-size
mismatch error and emits no ranges; the single `added` range covering the
present root's `[startKey, endKey]` appears only at the recursion level,
when an absent node meets a present one. -/
theorem C1_addition_amended (t : MerkleTree) (r : MerkleNode)
    (hr : t.GetRoot = some r) (hk : r.GetStartKey ≠ []) :
    ((NewDiff (NewMerkleTreeFromChunks []) t).Compare).2 =
      some ("chunk size mismatch: 0 vs " ++ toString r.GetStartKey.length) ∧
    ((NewDiff (NewMerkleTreeFromChunks []) t).Compare).1.GetRanges = [] ∧
    compareTreesRecursive none (some r) =
      [⟨r.GetStartKey, r.GetEndKey, .added⟩] := by
  obtain ⟨root⟩ := t
  obtain rfl : root = some r := hr
  have hne : (NewMerkleTreeFromChunks ([] : List Bytes)).GetChunkSize ≠
      (⟨some r⟩ : MerkleTree).GetChunkSize :=
    fun h0 => hk (List.length_eq_zero.mp h0.symm)
  refine ⟨?_, ?_, compareTreesRecursive_none_some r⟩
  · simp only [Diff.Compare, NewDiff]
    rw [if_pos hne]
    rfl
  · simp only [Diff.Compare, NewDiff]
    rw [if_pos hne]
    rfl

/-- C1 (counterexample): comparing the tree built from no chunks against
the one-chunk tree errors with the chunk-size mismatch — rather than
yielding one `added` range with no error as the claim states. -/
theorem C1_addition_counterexample :
    ((NewDiff (NewMerkleTreeFromChunks [])
        (NewMerkleTreeFromChunks [[97]])).Compare).2 =
      some "chunk size mismatch: 0 vs 7" ∧
    ((NewDiff (NewMerkleTreeFromChunks [])
        (NewMerkleTreeFromChunks [[97]])).Compare).2 ≠ none ∧
    ((NewDiff (NewMerkleTreeFromChunks [])
        (NewMerkleTreeFromChunks [[97]])).Compare).1.GetRanges = [] := by
  refine ⟨by decide, by decide, by decide⟩

/-- C1 (witness for the amended claim). -/
theorem C1_addition_witness :
    (NewMerkleTreeFromChunks [[97]]).GetRoot = some (chunkLeaf 0 [97]) ∧
    (chunkLeaf 0 [97]).GetStartKey ≠ [] ∧
    ((NewDiff (NewMerkleTreeFromChunks []) (NewMerkleTreeFromChunks [[97]])).Compare).2 =
      some ("chunk size mismatch: 0 vs " ++
        toString (chunkLeaf 0 [97]).GetStartKey.length) ∧
    compareTreesRecursive none (some (chunkLeaf 0 [97])) =
      [⟨(chunkLeaf 0 [97]).GetStartKey, (chunkLeaf 0 [97]).GetEndKey, .added⟩] :=
  ⟨by decide, by decide,
   (C1_addition_amended _ _ (by decide) (by decide)).1,
   (C1_addition_amended (NewMerkleTreeFromChunks [[97]]) _ (by decide)
     (by decide)).2.2⟩

/-- C2: whenever the two trees' chunk-size metadata (their roots'
start-key byte lengths, 0 for an absent root) disagree, `Compare` aborts
with the distinct chunk-size mismatch error and the range list stays
empty. -/
theorem C2_chunk_size_mismatch (tA tB : MerkleTree)
    (h : tA.GetChunkSize ≠ tB.GetChunkSize) :
    ((NewDiff tA tB).Compare).2 =
      some ("chunk size mismatch: " ++ toString tA.GetChunkSize ++
        " vs " ++ toString tB.GetChunkSize) ∧
    ((NewDiff tA tB).Compare).1.GetRanges = [] := by
  constructor <;> simp [Diff.Compare, NewDiff, Diff.GetRanges, h]

/-- C2 (witness): the empty tree against the one-chunk tree. -/
theorem C2_chunk_size_mismatch_witness :
    (NewMerkleTreeFromChunks []).GetChunkSize ≠
      (NewMerkleTreeFromChunks [[97]]).GetChunkSize ∧
    ((NewDiff (NewMerkleTreeFromChunks [])
        (NewMerkleTreeFromChunks [[97]])).Compare).2 =
      some ("chunk size mismatch: " ++
        toString (NewMerkleTreeFromChunks ([] : List Bytes)).GetChunkSize ++
        " vs " ++ toString (NewMerkleTreeFromChunks [[97]]).GetChunkSize) ∧
    ((NewDiff (NewMerkleTreeFromChunks [])
        (NewMerkleTreeFromChunks [[97]])).Compare).1.GetRanges = [] :=
  ⟨by decide, (C2_chunk_size_mismatch _ _ (by decide)).1,
   (C2_chunk_size_mismatch _ _ (by decide)).2⟩

/-- C3: building from three rows pairs the first two under a level-1
parent, carries the third leaf up bit-identically (the very leaf node,
still level 0, no parent wrapped around it), and combines both into a
level-2 root spanning the first row's key to the third row's key. -/
theorem C3_odd_carry (r1 r2 r3 : Row) :
    ∃ root lp, buildTreeFromRows [r1, r2, r3] = some root ∧
      root.GetLevel = 2 ∧ root.GetStartKey = r1.Key ∧
      root.GetEndKey = r3.Key ∧
      root.GetLeft = some lp ∧ lp.GetLevel = 1 ∧
      lp.GetLeft = some (rowLeaf r1) ∧ lp.GetRight = some (rowLeaf r2) ∧
      root.GetRight = some (rowLeaf r3) ∧
      (rowLeaf r3).GetLevel = 0 ∧ (rowLeaf r3).IsLeaf = true :=
  ⟨mkParentNode (mkParentNode (rowLeaf r1) (rowLeaf r2)) (rowLeaf r3),
   mkParentNode (rowLeaf r1) (rowLeaf r2),
   rfl, rfl, rfl, rfl, rfl, rfl, rfl, rfl, rfl, rfl, rfl⟩

/-- C4: diffing a tree against a second tree built from the same non-empty
row list yields no ranges and no error: the roots' hashes coincide, so the
walk stops at the top. -/
theorem C4_self_diff (rows : List Row) (hne : rows ≠ []) :
    ((NewDiff (NewMerkleTreeFromRows rows)
        (NewMerkleTreeFromRows rows)).Compare).1.GetRanges = [] ∧
    ((NewDiff (NewMerkleTreeFromRows rows)
        (NewMerkleTreeFromRows rows)).Compare).2 = none := by
  constructor <;>
    simp [Diff.Compare, NewDiff, Diff.GetRanges, compareTreesRecursive_self]

/-- C4 (witness): a one-row list. -/
theorem C4_self_diff_witness :
    ([⟨[107], [GoValue.int 5]⟩] : List Row) ≠ [] ∧
    ((NewDiff (NewMerkleTreeFromRows [⟨[107], [GoValue.int 5]⟩])
        (NewMerkleTreeFromRows [⟨[107], [GoValue.int 5]⟩])).Compare).1.GetRanges = [] ∧
    ((NewDiff (NewMerkleTreeFromRows [⟨[107], [GoValue.int 5]⟩])
        (NewMerkleTreeFromRows [⟨[107], [GoValue.int 5]⟩])).Compare).2 = none :=
  ⟨by decide, (C4_self_diff _ (by decide)).1, (C4_self_diff _ (by decide)).2⟩

/-- C5: a one-row tree against a two-row tree of the same key width whose
root hashes differ yields exactly one `changed` range from the minimum of
the two roots' start keys to the maximum of their end keys, with no error
and no descent into the internal side. -/
theorem C5_structural_mismatch (r1 s1 s2 : Row)
    (hk : r1.Key.length = s1.Key.length)
    (hh : (rowLeaf r1).GetHash ≠
      (mkParentNode (rowLeaf s1) (rowLeaf s2)).GetHash) :
    ((NewDiff (NewMerkleTreeFromRows [r1])
        (NewMerkleTreeFromRows [s1, s2])).Compare).2 = none ∧
    ((NewDiff (NewMerkleTreeFromRows [r1])
        (NewMerkleTreeFromRows [s1, s2])).Compare).1.GetRanges =
      [⟨minKey r1.Key s1.Key, maxKey r1.Key s2.Key, .changed⟩] := by
  have hcs : (NewMerkleTreeFromRows [r1]).GetChunkSize =
      (NewMerkleTreeFromRows [s1, s2]).GetChunkSize := by
    show r1.Key.length = s1.Key.length
    exact hk
  have hcond : ¬((NewDiff (NewMerkleTreeFromRows [r1])
      (NewMerkleTreeFromRows [s1, s2])).treeA.GetChunkSize ≠
        (NewDiff (NewMerkleTreeFromRows [r1])
          (NewMerkleTreeFromRows [s1, s2])).treeB.GetChunkSize) :=
    fun hne => hne hcs
  have hwalk : compareTreesRecursive (some (rowLeaf r1))
      (some (mkParentNode (rowLeaf s1) (rowLeaf s2))) =
      [⟨minKey r1.Key s1.Key, maxKey r1.Key s2.Key, .changed⟩] := by
    show compareTreesRecursiveF (2 + 1) (some (rowLeaf r1))
      (some (mkParentNode (rowLeaf s1) (rowLeaf s2))) = _
    rw [compareTreesRecursiveF_succ, if_neg hh]
    rfl
  constructor
  · unfold Diff.Compare
    rw [if_neg hcond]
  · unfold Diff.Compare
    rw [if_neg hcond]
    exact hwalk

set_option maxRecDepth 100000 in
/-- C5 (witness): key width 1 on both sides, root hashes checked
different by computation. -/
theorem C5_structural_mismatch_witness :
    (⟨[107], [GoValue.int 1]⟩ : Row).Key.length =
      (⟨[97], [GoValue.int 2]⟩ : Row).Key.length ∧
    (rowLeaf ⟨[107], [GoValue.int 1]⟩).GetHash ≠
      (mkParentNode (rowLeaf ⟨[97], [GoValue.int 2]⟩)
        (rowLeaf ⟨[98], [GoValue.int 3]⟩)).GetHash ∧
    ((NewDiff (NewMerkleTreeFromRows [⟨[107], [GoValue.int 1]⟩])
        (NewMerkleTreeFromRows [⟨[97], [GoValue.int 2]⟩,
          ⟨[98], [GoValue.int 3]⟩])).Compare).1.GetRanges =
      [⟨minKey [107] [97], maxKey [107] [98], .changed⟩] :=
  ⟨by decide, by decide,
   (C5_structural_mismatch ⟨[107], [GoValue.int 1]⟩ ⟨[97], [GoValue.int 2]⟩
     ⟨[98], [GoValue.int 3]⟩ (by decide) (by decide)).2⟩

/-- C6: `SerializeRow`'s output is the pure function `SerializeRowValues`
of the value list alone: two calls from any two serializer states — in
particular back-to-back calls on one instance — yield byte-identical
output. -/
theorem C6_serialize_deterministic :
    ∀ (s₁ s₂ : Serializer) (values : List GoValue),
      (s₁.SerializeRow values).2 = SerializeRowValues values ∧
      (s₁.SerializeRow values).2 = (s₂.SerializeRow values).2 ∧
      ((s₁.SerializeRow values).1.SerializeRow values).2 =
        (s₁.SerializeRow values).2 :=
  fun _ _ _ => ⟨rfl, rfl, rfl⟩

/-- C7: the integer 1 serializes as tag 2 plus the 8-byte big-endian
value, the text "1" (byte 49) as tag 1 plus a 4-byte big-endian length
and the UTF-8 bytes; the two byte strings differ. -/
theorem C7_type_discrimination :
    SerializeRowValues [GoValue.int 1] = [2, 0, 0, 0, 0, 0, 0, 0, 1] ∧
    SerializeRowValues [GoValue.str [49]] = [1, 0, 0, 0, 1, 49] ∧
    SerializeRowValues [GoValue.int 1] ≠ SerializeRowValues [GoValue.str [49]] :=
  ⟨by decide, by decide, by decide⟩

/-- C8: every node of a tree built from rows or from chunks satisfies the
spec's node invariants (`treeInv`): leaves are childless, level 0, with
equal start and end keys; internal nodes have two children, hash
`sha256 (leftHash ++ rightHash)`, the left child's start key, the right
child's end key, and level one above the deepest child. -/
theorem C8_node_invariants :
    (∀ (rows : List Row) (root : MerkleNode),
        buildTreeFromRows rows = some root → treeInv root = true) ∧
    (∀ (chunks : List Bytes) (root : MerkleNode),
        buildTreeFromChunks chunks = some root → treeInv root = true) := by
  constructor
  · intro rows root h
    unfold buildTreeFromRows at h
    split at h
    · exact absurd h (by simp)
    · refine treeInv_buildTreeLevelsF _ _ ?_ root h
      intro n hn
      simp only [List.mem_map] at hn
      obtain ⟨row, _, rfl⟩ := hn
      exact treeInv_rowLeaf row
  · intro chunks root h
    unfold buildTreeFromChunks at h
    split at h
    · exact absurd h (by simp)
    · refine treeInv_buildTreeLevelsF _ _ ?_ root h
      intro n hn
      simp only [List.mem_map] at hn
      obtain ⟨p, _, rfl⟩ := hn
      exact treeInv_chunkLeaf p.1 p.2

set_option maxRecDepth 100000 in
/-- C8 (witness): the two-row tree's root passes the invariant check. -/
theorem C8_node_invariants_witness :
    buildTreeFromRows [⟨[1], [GoValue.int 1]⟩, ⟨[2], [GoValue.int 2]⟩] =
      some (mkParentNode (rowLeaf ⟨[1], [GoValue.int 1]⟩)
        (rowLeaf ⟨[2], [GoValue.int 2]⟩)) ∧
    treeInv (mkParentNode (rowLeaf ⟨[1], [GoValue.int 1]⟩)
      (rowLeaf ⟨[2], [GoValue.int 2]⟩)) = true :=
  ⟨by decide,
   C8_node_invariants.1 [⟨[1], [GoValue.int 1]⟩, ⟨[2], [GoValue.int 2]⟩]
     (mkParentNode (rowLeaf ⟨[1], [GoValue.int 1]⟩)
       (rowLeaf ⟨[2], [GoValue.int 2]⟩)) (by decide)⟩

/-- C9: `BuildTreeFromReader` propagates a reader error with a nil tree
(never a partially built one), and yields an errorless tree with an
absent root when the reader ends cleanly with no rows. -/
theorem C9_reader_errors (r : ReaderModel) :
    (∀ e, r.err = some e → BuildTreeFromReader r = (none, some e)) ∧
    (r.err = none → r.rows = [] →
      BuildTreeFromReader r = (some ⟨none⟩, none)) := by
  constructor
  · intro e he
    simp [BuildTreeFromReader, he]
  · intro he hrows
    simp [BuildTreeFromReader, he, hrows]

/-- C9 (witness): a failing reader and an empty clean reader. -/
theorem C9_reader_errors_witness :
    ((⟨[⟨[107], [GoValue.int 1]⟩], some "read failure"⟩ : ReaderModel).err =
        some "read failure" ∧
      BuildTreeFromReader ⟨[⟨[107], [GoValue.int 1]⟩], some "read failure"⟩ =
        (none, some "read failure")) ∧
    ((⟨[], none⟩ : ReaderModel).err = none ∧
      (⟨[], none⟩ : ReaderModel).rows = [] ∧
      BuildTreeFromReader ⟨[], none⟩ = (some ⟨none⟩, none)) :=
  ⟨⟨rfl, (C9_reader_errors _).1 _ rfl⟩,
   ⟨rfl, rfl, (C9_reader_errors _).2 rfl rfl⟩⟩

/-- C10: both trees built from empty input have absent roots; the
chunk-size precheck reads 0 for each (no nil dereference in the model —
`MerkleTree.GetChunkSize` branches on the nil root), so `Compare`
finishes with no error and zero ranges. -/
theorem C10_both_empty :
    (NewMerkleTreeFromChunks []).GetChunkSize = 0 ∧
    (NewMerkleTreeFromRows []).GetChunkSize = 0 ∧
    ((NewDiff (NewMerkleTreeFromChunks [])
        (NewMerkleTreeFromRows [])).Compare).2 = none ∧
    ((NewDiff (NewMerkleTreeFromChunks [])
        (NewMerkleTreeFromRows [])).Compare).1.GetRanges = [] := by
  refine ⟨rfl, rfl, by decide, by decide⟩

end Merklediff
